import Mathlib

/-!
# Verification of the scan-coordination core (`src/scan_manager.rs`)

Shallow embedding of the scan manager: scan records (`FeroxScan`), the
scan registry (`FeroxScans`), the response registry (`FeroxResponses`),
the pause busy-loop (`FeroxScans.pause`) and the resume-from-state-file
path (`resume_scan`).

Modelling conventions:
* A Rust `Mutex<T>` / `RwLock<T>` is embedded as `Locked T`: the payload
  together with a `poisoned` flag; `lock()` returning `Err` corresponds
  to `poisoned = true`.
* Interior mutability is embedded by explicit state passing: a Rust
  method taking `&mut self` (or mutating through a lock) becomes a Lean
  function returning the updated value.
* `indicatif::ProgressBar` is an external crate type; it is embedded by
  the data the scan manager observes of it (length, position, finished).
* `uuid::Uuid::new_v4()` (external crate) yields process-unique,
  collision-resistant identifiers; it is embedded as a supply
  `uuid : Nat → String` indexed by the call counter `g`, injectivity of
  the supply standing in for collision resistance.
* Time (`tokio::time::interval`) is embedded by indexing the successive
  ticks of the pause busy-loop with `0, 1, 2, …`; the value the loop
  reads from the atomic `PAUSE_SCAN` at tick `n` is `flags n`.
* Process termination through `unwrap()` panics is embedded as `none` in
  an `Option`-valued result.
-/

/-- Embedding of `std::sync::Mutex<α>` / `RwLock<α>`: the protected value
plus whether the lock is poisoned (`lock()` would return `Err`). -/
structure Locked (α : Type) where
  val : α
  poisoned : Bool
  deriving Repr, DecidableEq

/-- Modelled from the spec: the progress-reporting widget
(`indicatif::ProgressBar`, an external collaborator) restricted to the
data this core observes: its total length, current position and whether
`finish` has been called. -/
structure ProgressBar where
  length : Nat
  position : Nat
  finished : Bool
  deriving Repr, DecidableEq

namespace ProgressBar

/-- Modelled from the spec: `ProgressBar::finish` moves the bar to its
end and marks it finished. -/
def finish (pb : ProgressBar) : ProgressBar :=
  { pb with position := pb.length, finished := true }

/-- Modelled from the spec: `ProgressBar::finish_and_clear` finishes the
bar (and clears its terminal artifacts, which are not data). -/
def finish_and_clear (pb : ProgressBar) : ProgressBar :=
  { pb with position := pb.length, finished := true }

/-- Modelled from the spec: `ProgressBar::reset_elapsed` resets the
elapsed-time display; wall-clock time is not part of the data model, so
the observable state is unchanged. -/
def reset_elapsed (pb : ProgressBar) : ProgressBar := pb

/-- Modelled from the spec: `ProgressBar::enable_steady_tick` starts a
periodic redraw; a timing-only effect, the observable state is
unchanged. -/
def enable_steady_tick (pb : ProgressBar) (_ms : Nat) : ProgressBar := pb

end ProgressBar

/-- Modelled from the spec: `progress::add_bar(url, length, hidden)`
(collaborator module `progress.rs`) creates a fresh, unfinished bar
sized to `length`. -/
def add_bar (_url : String) (length : Nat) (_hidden : Bool) : ProgressBar :=
  { length := length, position := 0, finished := false }

/-- `ScanType`: flags a `FeroxScan` as likely a directory or file. -/
inductive ScanType where
  | File
  | Directory
  deriving Repr, DecidableEq

/-- Embedding of `tokio::task::JoinHandle<()>`: the scan manager only
ever tests its presence (the `task.abort()` call is commented out in the
source), so the handle carries no data. -/
structure JoinHandle where
  deriving Repr, DecidableEq

/-- `FeroxScan`: scan-related state (id, url, type, completion, task
handle, progress bar). -/
structure FeroxScan where
  id : String
  url : String
  scan_type : ScanType
  complete : Bool
  task : Option JoinHandle
  progress_bar : Option ProgressBar
  deriving Repr, DecidableEq

namespace FeroxScan

/-- `FeroxScan::stop_progress_bar`: call `.finish` on the scan's
progress bar, when one is present. -/
def stop_progress_bar (s : FeroxScan) : FeroxScan :=
  match s.progress_bar with
  | some pb => { s with progress_bar := some pb.finish }
  | none => s

/-- `FeroxScan::abort`: stop a currently running scan. Stops the
progress bar; the `task.abort()` call is commented out in the source
(issue #107), so the task field is only inspected, never changed. -/
def abort (s : FeroxScan) : FeroxScan :=
  s.stop_progress_bar

/-- `FeroxScan::default`: create a default `FeroxScan`, populating `id`
with a new UUID. `uuid` is the embedded `Uuid::new_v4` supply and `g`
the call counter. -/
def mkDefault (uuid : Nat → String) (g : Nat) : FeroxScan × Nat :=
  ({ id := uuid g
     task := none
     complete := false
     url := ""
     progress_bar := none
     scan_type := ScanType.File }, g + 1)

/-- `FeroxScan::progress_bar(&mut self)`: return the existing progress
bar, or lazily create one sized to `NUMBER_OF_REQUESTS` (passed here as
`numRequests`), store it and return it. Named `progressBar` because the
field keeps the source name `progress_bar`. -/
def progressBar (s : FeroxScan) (numRequests : Nat) : ProgressBar × FeroxScan :=
  match s.progress_bar with
  | some pb => (pb, s)
  | none =>
    let pb := (add_bar s.url numRequests false).reset_elapsed
    (pb, { s with progress_bar := some pb })

/-- `FeroxScan::new`: given a URL, scan type and optional progress bar,
create a new `FeroxScan`, wrap it in a fresh (healthy) `Arc<Mutex<_>>`
and return it, threading the UUID supply counter. -/
def new (uuid : Nat → String) (url : String) (scan_type : ScanType)
    (pb : Option ProgressBar) (g : Nat) : Locked FeroxScan × Nat :=
  let (me, g') := mkDefault uuid g
  (⟨{ me with url := url, scan_type := scan_type, progress_bar := pb }, false⟩, g')

/-- `FeroxScan::finish`: mark the scan as complete and stop the scan's
progress bar. -/
def finish (s : FeroxScan) : FeroxScan :=
  { s with complete := true }.stop_progress_bar

/-- `PartialEq for FeroxScan`: uses `FeroxScan.id` for comparison. -/
def eq (a b : FeroxScan) : Bool :=
  a.id == b.id

/-- `Display for FeroxScan`: `"{:10} {}"` with the (styled) status
string and the url. Terminal coloring (`console::style`) is abstracted
away; `{:10}` left-justifies the status to width 10. -/
def display (s : FeroxScan) : String :=
  let complete := if s.complete then "complete" else "incomplete"
  complete ++ String.mk (List.replicate (10 - complete.length) ' ') ++ " " ++ s.url

end FeroxScan

/-- `FeroxScans`: container around a locked vector of `FeroxScan`s; each
element is itself behind its own lock (`Arc<Mutex<FeroxScan>>`). -/
structure FeroxScans where
  scans : Locked (List (Locked FeroxScan))
  deriving Repr, DecidableEq

namespace FeroxScans

/-- `FeroxScans::default`: an empty registry behind a fresh (healthy)
lock. -/
def mkDefault : FeroxScans :=
  ⟨⟨[], false⟩⟩

/-- `FeroxScans::contains`: whether some stored scan has the given URL.
A poisoned container lock is logged and answered `false`; a stored scan
whose own lock is poisoned is skipped (`if let Ok`). -/
def contains (s : FeroxScans) (url : String) : Bool :=
  if s.scans.poisoned then
    false
  else
    s.scans.val.any fun scan => !scan.poisoned && scan.val.url == url

/-- `FeroxScans::get_scan_by_url`: find and return the first stored scan
with the given URL; `none` when the container lock is poisoned or no
(unlockable) scan matches. -/
def get_scan_by_url (s : FeroxScans) (url : String) : Option (Locked FeroxScan) :=
  if s.scans.poisoned then
    none
  else
    s.scans.val.find? fun scan => !scan.poisoned && scan.val.url == url

/-- `FeroxScans::insert`: lock the scan and check the container for the
scan's URL (a poisoned scan lock is logged and treated as
already-present, `sentry = false`); when absent, lock the container and
append (a poisoned container lock is logged and the call returns
`false`). Returns whether the scan was stored, plus the updated
registry. -/
def insert (s : FeroxScans) (scan : Locked FeroxScan) : Bool × FeroxScans :=
  let sentry := if scan.poisoned then false else !s.contains scan.val.url
  if sentry then
    if s.scans.poisoned then
      (false, s)
    else
      (true, ⟨⟨s.scans.val ++ [scan], false⟩⟩)
  else
    (sentry, s)

/-- Left padding of an index to width 3 (`"{:3}"`, numeric right
alignment). -/
def fmtIndex (i : Nat) : String :=
  let t := toString i
  String.mk (List.replicate (3 - t.length) ' ') ++ t

/-- One line of `FeroxScans::display_scans` output:
`"{:3}: {}"` applied to the index and the scan's `Display`. -/
def fmtLine (i : Nat) (sc : FeroxScan) : String :=
  fmtIndex i ++ ": " ++ sc.display

/-- `FeroxScans::display_scans`: print all scans of type `Directory`,
each as `fmtLine index scan`; `File` scans are skipped, and so are scans
whose own lock is poisoned; a poisoned container lock prints nothing.
The printed lines are returned together with the registry, which the
source only reads (`&self`, no mutation). -/
def display_scans (s : FeroxScans) : List String × FeroxScans :=
  if s.scans.poisoned then
    ([], s)
  else
    (s.scans.val.enum.filterMap fun p =>
      if p.2.poisoned then
        none
      else
        match p.2.val.scan_type with
        | ScanType.Directory => some (fmtLine p.1 p.2.val)
        | ScanType.File => none, s)

/-- `FeroxScans::add_scan`: build the progress bar appropriate to the
scan type (`Directory` scans get a bar sized to `NUMBER_OF_REQUESTS`,
passed here as `numRequests`; `File` scans get none), construct a
`FeroxScan` and insert it; returns `(was_newly_inserted, handle)` plus
the updated registry and UUID counter. -/
def add_scan (s : FeroxScans) (uuid : Nat → String) (url : String)
    (scan_type : ScanType) (numRequests : Nat) (g : Nat) :
    (Bool × Locked FeroxScan) × FeroxScans × Nat :=
  let bar : Option ProgressBar :=
    match scan_type with
    | ScanType.Directory => some (add_bar url numRequests false).reset_elapsed
    | ScanType.File => none
  let (ferox_scan, g') := FeroxScan.new uuid url scan_type bar g
  let (response, s') := s.insert ferox_scan
  ((response, ferox_scan), s', g')

/-- `FeroxScans::add_directory_scan`. -/
def add_directory_scan (s : FeroxScans) (uuid : Nat → String) (url : String)
    (numRequests : Nat) (g : Nat) : (Bool × Locked FeroxScan) × FeroxScans × Nat :=
  s.add_scan uuid url ScanType.Directory numRequests g

/-- `FeroxScans::add_file_scan`. -/
def add_file_scan (s : FeroxScans) (uuid : Nat → String) (url : String)
    (numRequests : Nat) (g : Nat) : (Bool × Locked FeroxScan) × FeroxScans × Nat :=
  s.add_scan uuid url ScanType.File numRequests g

end FeroxScans

/-- `get_single_spinner`: a fresh clock spinner (`ProgressBar::new_spinner`),
used while scans are paused; not finished on creation. -/
def get_single_spinner : ProgressBar :=
  { length := 0, position := 0, finished := false }

/-- The global state the pause path touches besides the registry: the
`INTERACTIVE_BARRIER` atomic counter and the `SINGLE_SPINNER` lock. -/
structure PauseGlobals where
  interactive_barrier : Nat
  single_spinner : Locked ProgressBar
  deriving Repr, DecidableEq

/-- The busy loop inside `FeroxScans::pause`: on each tick (ticks are
indexed `n, n+1, …`; the first tick happens immediately, all others wait
`SLEEP_DURATION`), read `PAUSE_SCAN` (`flags` gives the value observed at
each tick); when it is `false`, do the barrier decrement (only when the
counter is exactly 1), finish-and-clear the spinner and return the tick
index at which the loop exited together with the updated globals.  `fuel`
bounds the number of ticks the embedding unrolls; `none` means the loop
was still running after `fuel` ticks. -/
def pauseLoop (flags : Nat → Bool) (pg : PauseGlobals) :
    Nat → Nat → Option (Nat × PauseGlobals)
  | 0, _ => none
  | fuel + 1, n =>
    if flags n then
      pauseLoop flags pg fuel (n + 1)
    else
      some (n,
        { interactive_barrier :=
            if pg.interactive_barrier == 1 then pg.interactive_barrier - 1
            else pg.interactive_barrier
          single_spinner :=
            if pg.single_spinner.poisoned then pg.single_spinner
            else ⟨pg.single_spinner.val.finish_and_clear, false⟩ })

/-- The barrier step at the head of `FeroxScans::pause`: when the
`INTERACTIVE_BARRIER` is 0, this caller is the leader and increments
it. -/
def pauseBarrierStep (pg : PauseGlobals) : PauseGlobals :=
  if pg.interactive_barrier == 0 then
    { pg with interactive_barrier := pg.interactive_barrier + 1 }
  else pg

/-- The leader's one-time interactive work in `FeroxScans::pause`: when
this caller is the leader and `get_user_input` is set, `display_scans`
runs (its lines are the observable output; the `read_line` that follows
consumes input without acting on it); every other caller prints
nothing. -/
def pauseShownLines (s : FeroxScans) (get_user_input : Bool) (pg : PauseGlobals) :
    List String :=
  if pg.interactive_barrier == 0 && get_user_input then s.display_scans.1 else []

/-- The spinner preparation in `FeroxScans::pause`: a `SINGLE_SPINNER`
found already finished is replaced by a fresh spinner, then the steady
tick is enabled (each step skipped when the spinner's lock is
poisoned). -/
def pauseSpinnerPrep (pg : PauseGlobals) : PauseGlobals :=
  let pg :=
    if !pg.single_spinner.poisoned && pg.single_spinner.val.finished then
      { pg with single_spinner := ⟨get_single_spinner, false⟩ }
    else pg
  if pg.single_spinner.poisoned then pg
  else { pg with single_spinner := ⟨pg.single_spinner.val.enable_steady_tick 120, false⟩ }

/-- `FeroxScans::pause`: the pause-wait entry point. The leader (first
caller to see the barrier at 0) increments the barrier and performs the
one-time interactive work; the shared spinner is recreated when already
finished and its steady tick enabled; then the busy loop is entered.
Returns the exit tick, the updated globals and the leader's displayed
lines, or `none` when the loop is still running after `fuel` ticks. -/
def FeroxScans.pause (s : FeroxScans) (get_user_input : Bool) (pg : PauseGlobals)
    (flags : Nat → Bool) (fuel : Nat) :
    Option (Nat × PauseGlobals × List String) :=
  match pauseLoop flags (pauseSpinnerPrep (pauseBarrierStep pg)) fuel 0 with
  | none => none
  | some (n, pg') => some (n, pg', pauseShownLines s get_user_input pg)

/-- Modelled from the spec: `FeroxResponse` (defined outside the scan
manager) is a completed HTTP interaction summary, opaque to this core
beyond exposing a `url` field; the remaining metadata is bundled into an
uninterpreted `meta` field. -/
structure FeroxResponse where
  url : String
  meta : String
  deriving Repr, DecidableEq

/-- `FeroxResponses`: container around a locked vector of
`FeroxResponse`s. -/
structure FeroxResponses where
  responses : Locked (List FeroxResponse)
  deriving Repr, DecidableEq

namespace FeroxResponses

/-- `FeroxResponses::insert`: append the response under the write lock;
a poisoned lock is logged and the mutation dropped. -/
def insert (r : FeroxResponses) (response : FeroxResponse) : FeroxResponses :=
  if r.responses.poisoned then
    r
  else
    ⟨⟨r.responses.val ++ [response], false⟩⟩

/-- `FeroxResponses::contains`: whether some stored response has the
same `url`; a poisoned lock is logged and answered `false`. -/
def contains (r : FeroxResponses) (other : FeroxResponse) : Bool :=
  if r.responses.poisoned then
    false
  else
    r.responses.val.any fun response => response.url == other.url

end FeroxResponses

/-- Embedding of `serde_json::Value`. -/
inductive Json where
  | null
  | bool (b : Bool)
  | num (n : Int)
  | str (s : String)
  | arr (elems : List Json)
  | obj (fields : List (String × Json))

namespace Json

/-- `serde_json::Value::get(key)` on an object: look the key up; `None`
on a missing key or a non-object. -/
def get (j : Json) (key : String) : Option Json :=
  match j with
  | obj fields =>
    match fields.find? (fun f => f.1 == key) with
    | some f => some f.2
    | none => none
  | _ => none

/-- `serde_json::Value::as_array`. -/
def as_array (j : Json) : Option (List Json) :=
  match j with
  | arr elems => some elems
  | _ => none

end Json

/-- The `for response in responses` loop of `resume_scan`: each element
is deserialized (`serde_json::from_value(...).unwrap()`, a panic — i.e.
`none` — on a malformed element) and inserted into the live
`FeroxResponses` registry, in file order. -/
def insertResponses (parseResponse : Json → Option FeroxResponse)
    (reg : FeroxResponses) : List Json → Option FeroxResponses
  | [] => some reg
  | j :: rest =>
    match parseResponse j with
    | none => none
    | some r => insertResponses parseResponse (reg.insert r) rest

/-- `resume_scan(filename)`: open the given state file, parse it as
JSON, deserialize its `config` section, and replay every element of its
`responses` section into the live `FeroxResponses` registry; the `scans`
section is not replayed (that line is commented out in the source), so
the live `FeroxScans` registry is passed through untouched.  The
filesystem is embedded as `fs : String → Option (Option Json)`: `none`
is a file `File::open` fails on, `some none` a file whose contents do
not parse as JSON, `some (some state)` a file parsing to `state`.
`Configuration` and `FeroxResponse` deserialization live outside the
scan manager and are taken as parameters `parseConfig` / `parseResponse`.
Every `unwrap()` panic — missing file, unparseable JSON, missing
`config`/`responses` key, failed deserialization, non-array `responses`
— terminates the process, embedded as `none`. -/
def resume_scan {Config : Type} (fs : String → Option (Option Json))
    (parseConfig : Json → Option Config)
    (parseResponse : Json → Option FeroxResponse)
    (responses : FeroxResponses) (scans : FeroxScans) (filename : String) :
    Option (Config × FeroxResponses × FeroxScans) :=
  match fs filename with
  | none => none
  | some none => none
  | some (some state) =>
    match state.get "config" with
    | none => none
    | some configJson =>
      match parseConfig configJson with
      | none => none
      | some config =>
        match state.get "responses" with
        | none => none
        | some responsesJson =>
          match responsesJson.as_array with
          | none => none
          | some elems =>
            match insertResponses parseResponse responses elems with
            | none => none
            | some reg => some (config, reg, scans)

/-! ## Spec-side vocabulary for the registry dedup invariant -/

/-- Boolean membership of a URL in a list of URLs (spec-side helper,
with the same `==` orientation as the registry's linear scans). -/
def memUrl (u : String) : List String → Bool
  | [] => false
  | v :: rest => (v == u) || memUrl u rest

namespace FeroxScans

/-- Whether some stored record (ignoring its lock state) has the given
URL: the registry's URL content, used to state the dedup invariant. -/
def hasUrl (s : FeroxScans) (u : String) : Bool :=
  s.scans.val.any fun r => r.val.url == u

/-- A registry whose locks can all be taken: the container lock and
every stored record's lock are unpoisoned.  The embedded sequential
executions never poison a lock, so this is an invariant of every run
that starts from `FeroxScans.mkDefault`. -/
def healthy (s : FeroxScans) : Prop :=
  s.scans.poisoned = false ∧ ∀ r ∈ s.scans.val, r.poisoned = false

/-- No two stored records share a URL. -/
def urlsDistinct (s : FeroxScans) : Prop :=
  s.scans.val.Pairwise fun a b => a.val.url ≠ b.val.url

end FeroxScans

/-- One call of a `FeroxScans` insertion sequence: a direct `insert` of
a prebuilt record, or an insertion through `add_directory_scan` /
`add_file_scan`. -/
inductive InsertOp where
  | raw (scan : Locked FeroxScan)
  | dir (url : String)
  | file (url : String)

namespace InsertOp

/-- The URL an insertion call is about. -/
def opUrl : InsertOp → String
  | raw scan => scan.val.url
  | dir u => u
  | file u => u

/-- A call whose prebuilt record (if any) is behind a healthy lock;
records built by `add_scan` are always behind a fresh lock. -/
def healthyB : InsertOp → Bool
  | raw scan => !scan.poisoned
  | dir _ => true
  | file _ => true

end InsertOp

/-- Execute one insertion call against the registry, threading the UUID
counter. -/
def stepOp (uuid : Nat → String) (numRequests : Nat) (s : FeroxScans) (g : Nat) :
    InsertOp → Bool × FeroxScans × Nat
  | InsertOp.raw scan => ((s.insert scan).1, (s.insert scan).2, g)
  | InsertOp.dir u =>
    ((s.add_directory_scan uuid u numRequests g).1.1,
     (s.add_directory_scan uuid u numRequests g).2)
  | InsertOp.file u =>
    ((s.add_file_scan uuid u numRequests g).1.1,
     (s.add_file_scan uuid u numRequests g).2)

/-- Execute a sequence of insertion calls, collecting each call's
returned boolean. -/
def runOps (uuid : Nat → String) (numRequests : Nat) :
    FeroxScans → Nat → List InsertOp → List Bool × FeroxScans × Nat
  | s, g, [] => ([], s, g)
  | s, g, op :: rest =>
    let r := stepOp uuid numRequests s g op
    let r' := runOps uuid numRequests r.2.1 r.2.2 rest
    (r.1 :: r'.1, r'.2)

/-! ## Lemmas: the registry's linear scans and guarded insert -/

/-- On a list of healthy records, the lock-skipping scan of `contains`
agrees with the plain URL scan. -/
lemma any_healthy_eq (u : String) :
    ∀ l : List (Locked FeroxScan), (∀ r ∈ l, r.poisoned = false) →
      (l.any fun r => !r.poisoned && r.val.url == u) = (l.any fun r => r.val.url == u) := by
  intro l
  induction l with
  | nil => intro _; rfl
  | cons r rest ih =>
    intro h
    have hr : r.poisoned = false := h r (List.mem_cons_self r rest)
    have hrest := ih fun x hx => h x (List.mem_cons_of_mem r hx)
    simp [List.any_cons, hr, hrest]

/-- For a healthy registry, `contains` computes URL membership. -/
lemma FeroxScans.contains_eq_hasUrl (s : FeroxScans) (hs : s.healthy) (u : String) :
    s.contains u = s.hasUrl u := by
  obtain ⟨h1, h2⟩ := hs
  simp [FeroxScans.contains, FeroxScans.hasUrl, h1, any_healthy_eq u s.scans.val h2]

/-- `insert` on a healthy registry with a healthy record: the returned
boolean is the negated URL-membership test, and the registry is appended
to exactly when the URL was absent. -/
lemma FeroxScans.insert_spec (s : FeroxScans) (scan : Locked FeroxScan)
    (hs : s.healthy) (hscan : scan.poisoned = false) :
    (s.insert scan).1 = !s.hasUrl scan.val.url ∧
    (s.insert scan).2 =
      if s.hasUrl scan.val.url then s else ⟨⟨s.scans.val ++ [scan], false⟩⟩ := by
  have h1 := hs.1
  cases h : s.hasUrl scan.val.url <;>
    simp [FeroxScans.insert, hscan, FeroxScans.contains_eq_hasUrl s hs, h, h1]

/-- Everything `insert` guarantees on healthy inputs: result boolean,
preserved health, preserved URL-distinctness, and the URL content of the
updated registry. -/
lemma FeroxScans.insert_post (s : FeroxScans) (scan : Locked FeroxScan)
    (hs : s.healthy) (hscan : scan.poisoned = false) :
    (s.insert scan).1 = !s.hasUrl scan.val.url ∧
    (s.insert scan).2.healthy ∧
    (s.urlsDistinct → (s.insert scan).2.urlsDistinct) ∧
    (∀ u, (s.insert scan).2.hasUrl u = (s.hasUrl u || (scan.val.url == u))) := by
  obtain ⟨e1, e2⟩ := FeroxScans.insert_spec s scan hs hscan
  refine ⟨e1, ?_, ?_, ?_⟩
  · rw [e2]
    cases h : s.hasUrl scan.val.url with
    | true => simpa [h] using hs
    | false =>
      simp only [h, if_false, Bool.false_eq_true]
      refine ⟨rfl, ?_⟩
      intro r hr
      rcases List.mem_append.1 hr with hmem | hmem
      · exact hs.2 r hmem
      · rcases List.mem_singleton.1 hmem with rfl
        exact hscan
  · intro hd
    rw [e2]
    cases h : s.hasUrl scan.val.url with
    | true => simpa [h] using hd
    | false =>
      simp only [h, if_false, Bool.false_eq_true]
      have habs : ∀ r ∈ s.scans.val, r.val.url ≠ scan.val.url := by
        intro r hr
        have := (List.any_eq_false.mp h) r hr
        simpa using this
      unfold FeroxScans.urlsDistinct at hd ⊢
      rw [List.pairwise_append]
      exact ⟨hd, List.pairwise_singleton _ _, fun a ha b hb => by
        rcases List.mem_singleton.1 hb with rfl
        exact habs a ha⟩
  · intro u
    rw [e2]
    cases h : s.hasUrl scan.val.url with
    | true =>
      simp only [h, if_true]
      cases q : (scan.val.url == u) with
      | true =>
        rcases eq_of_beq q with rfl
        simp [h]
      | false => simp
    | false =>
      simp [h, FeroxScans.hasUrl, List.any_append]

/-- Everything one insertion call guarantees, regardless of its flavor
(`insert`, `add_directory_scan`, `add_file_scan`). -/
lemma stepOp_spec (uuid : Nat → String) (numRequests : Nat) (s : FeroxScans)
    (g : Nat) (op : InsertOp) (hs : s.healthy) (hop : op.healthyB = true) :
    (stepOp uuid numRequests s g op).1 = !s.hasUrl op.opUrl ∧
    (stepOp uuid numRequests s g op).2.1.healthy ∧
    (s.urlsDistinct → (stepOp uuid numRequests s g op).2.1.urlsDistinct) ∧
    (∀ u, (stepOp uuid numRequests s g op).2.1.hasUrl u =
      (s.hasUrl u || (op.opUrl == u))) := by
  cases op with
  | raw scan =>
    have hscan : scan.poisoned = false := by
      simpa [InsertOp.healthyB] using hop
    simpa [stepOp, InsertOp.opUrl] using FeroxScans.insert_post s scan hs hscan
  | dir u =>
    simpa [stepOp, InsertOp.opUrl, FeroxScans.add_directory_scan, FeroxScans.add_scan,
      FeroxScan.new, FeroxScan.mkDefault] using
      FeroxScans.insert_post s
        ⟨{ id := uuid g, url := u, scan_type := ScanType.Directory, complete := false,
           task := none,
           progress_bar := some (add_bar u numRequests false).reset_elapsed }, false⟩
        hs rfl
  | file u =>
    simpa [stepOp, InsertOp.opUrl, FeroxScans.add_file_scan, FeroxScans.add_scan,
      FeroxScan.new, FeroxScan.mkDefault] using
      FeroxScans.insert_post s
        ⟨{ id := uuid g, url := u, scan_type := ScanType.File, complete := false,
           task := none, progress_bar := none }, false⟩
        hs rfl

/-- Everything a run of insertion calls guarantees on healthy inputs:
preserved health and URL-distinctness, the URL content of the final
registry, and each call's returned boolean as the negated membership of
its URL among the initial content plus the preceding calls' URLs. -/
lemma runOps_spec (uuid : Nat → String) (numRequests : Nat) :
    ∀ (ops : List InsertOp) (s : FeroxScans) (g : Nat),
      s.healthy → (∀ op ∈ ops, op.healthyB = true) →
      (runOps uuid numRequests s g ops).2.1.healthy ∧
      (s.urlsDistinct → (runOps uuid numRequests s g ops).2.1.urlsDistinct) ∧
      (∀ u, (runOps uuid numRequests s g ops).2.1.hasUrl u =
        (s.hasUrl u || memUrl u (ops.map InsertOp.opUrl))) ∧
      (runOps uuid numRequests s g ops).1.length = ops.length ∧
      (∀ i, i < ops.length →
        (runOps uuid numRequests s g ops).1.getD i false =
          !(s.hasUrl ((ops.map InsertOp.opUrl).getD i "") ||
            memUrl ((ops.map InsertOp.opUrl).getD i "")
              ((ops.take i).map InsertOp.opUrl))) := by
  intro ops
  induction ops with
  | nil =>
    intro s g hs _
    refine ⟨hs, fun h => h, ?_, rfl, ?_⟩
    · intro u
      simp [runOps, memUrl]
    · intro i hi
      exact absurd hi (Nat.not_lt_zero i)
  | cons op rest ih =>
    intro s g hs hops
    obtain ⟨e1, e2, e3, e4⟩ :=
      stepOp_spec uuid numRequests s g op hs (hops op (List.mem_cons_self op rest))
    obtain ⟨ih1, ih2, ih3, ih4, ih5⟩ :=
      ih (stepOp uuid numRequests s g op).2.1 (stepOp uuid numRequests s g op).2.2 e2
        (fun o ho => hops o (List.mem_cons_of_mem op ho))
    have hrun : runOps uuid numRequests s g (op :: rest) =
        ((stepOp uuid numRequests s g op).1 ::
          (runOps uuid numRequests (stepOp uuid numRequests s g op).2.1
            (stepOp uuid numRequests s g op).2.2 rest).1,
         (runOps uuid numRequests (stepOp uuid numRequests s g op).2.1
            (stepOp uuid numRequests s g op).2.2 rest).2) := rfl
    rw [hrun]
    refine ⟨ih1, fun hd => ih2 (e3 hd), ?_, ?_, ?_⟩
    · intro u
      rw [ih3 u, e4 u]
      simp [memUrl, Bool.or_assoc]
    · simpa using ih4
    · intro i hi
      cases i with
      | zero =>
        simpa [memUrl] using e1
      | succ i =>
        have hi' : i < rest.length := Nat.lt_of_succ_lt_succ hi
        have := ih5 i hi'
        simp only [List.getD_cons_succ, List.map_cons, List.take_succ_cons]
        rw [this, e4]
        simp [memUrl, Bool.or_assoc]

/-- C1: for every sequence of `FeroxScans` insertion calls (direct
`insert` calls as well as `add_directory_scan` / `add_file_scan`,
regardless of scan type), starting from the fresh registry: each call
returns true iff no prior call supplied the same URL (so the first
insert of a given URL returns true and every subsequent one false, and
since the final URL content is exactly the inserted URLs, a call returns
true iff no existing entry had its URL and a true return stores the
record); the final registry holds at most one record per distinct URL. -/
theorem scanRegistry_insert_dedup (uuid : Nat → String) (numRequests g : Nat)
    (ops : List InsertOp) (hops : ∀ op ∈ ops, op.healthyB = true) :
    (runOps uuid numRequests FeroxScans.mkDefault g ops).1.length = ops.length ∧
    (∀ i, i < ops.length →
      (runOps uuid numRequests FeroxScans.mkDefault g ops).1.getD i false =
        !memUrl ((ops.map InsertOp.opUrl).getD i "")
          ((ops.take i).map InsertOp.opUrl)) ∧
    (runOps uuid numRequests FeroxScans.mkDefault g ops).2.1.urlsDistinct ∧
    (∀ u, (runOps uuid numRequests FeroxScans.mkDefault g ops).2.1.hasUrl u =
      memUrl u (ops.map InsertOp.opUrl)) := by
  have hmk : FeroxScans.mkDefault.healthy := by
    exact ⟨rfl, by intro r hr; cases hr⟩
  obtain ⟨h1, h2, h3, h4, h5⟩ := runOps_spec uuid numRequests ops FeroxScans.mkDefault g hmk hops
  refine ⟨h4, ?_, h2 (List.Pairwise.nil), ?_⟩
  · intro i hi
    have := h5 i hi
    simpa [FeroxScans.mkDefault, FeroxScans.hasUrl] using this
  · intro u
    have := h3 u
    simpa [FeroxScans.mkDefault, FeroxScans.hasUrl] using this

/-- Witness for C1: the spec's concrete scenario — a Directory insert of
`http://example.test/`, a second Directory insert of the same URL, and a
File insert of the same URL. -/
theorem scanRegistry_insert_dedup_witness :
    (runOps (fun g => toString g) 7 FeroxScans.mkDefault 0
      [InsertOp.dir "http://example.test/", InsertOp.dir "http://example.test/",
       InsertOp.file "http://example.test/"]).1.length = 3 ∧
    (∀ i, i < ([InsertOp.dir "http://example.test/", InsertOp.dir "http://example.test/",
       InsertOp.file "http://example.test/"] : List InsertOp).length →
      (runOps (fun g => toString g) 7 FeroxScans.mkDefault 0
        [InsertOp.dir "http://example.test/", InsertOp.dir "http://example.test/",
         InsertOp.file "http://example.test/"]).1.getD i false =
        !memUrl (([InsertOp.dir "http://example.test/", InsertOp.dir "http://example.test/",
           InsertOp.file "http://example.test/"].map InsertOp.opUrl).getD i "")
          (([InsertOp.dir "http://example.test/", InsertOp.dir "http://example.test/",
             InsertOp.file "http://example.test/"].take i).map InsertOp.opUrl)) ∧
    (runOps (fun g => toString g) 7 FeroxScans.mkDefault 0
      [InsertOp.dir "http://example.test/", InsertOp.dir "http://example.test/",
       InsertOp.file "http://example.test/"]).2.1.urlsDistinct ∧
    (∀ u, (runOps (fun g => toString g) 7 FeroxScans.mkDefault 0
      [InsertOp.dir "http://example.test/", InsertOp.dir "http://example.test/",
       InsertOp.file "http://example.test/"]).2.1.hasUrl u =
      memUrl u ([InsertOp.dir "http://example.test/", InsertOp.dir "http://example.test/",
        InsertOp.file "http://example.test/"].map InsertOp.opUrl)) :=
  scanRegistry_insert_dedup (fun g => toString g) 7 0
    [InsertOp.dir "http://example.test/", InsertOp.dir "http://example.test/",
     InsertOp.file "http://example.test/"] (by decide)

/-- C5: poisoned-lock degradation. A poisoned registry lock makes
`contains` answer false, `get_scan_by_url` answer none, and `insert`
return false without storing; a poisoned lock on the record being
inserted makes `insert` return false without storing; a poisoned
response-registry lock makes `FeroxResponses.insert` drop the record and
`FeroxResponses.contains` answer false. No operation propagates a fatal
error. -/
theorem poisonedLock_degrades (s : FeroxScans) (u : String) (scan : Locked FeroxScan)
    (rr : FeroxResponses) (resp other : FeroxResponse) :
    (s.scans.poisoned = true →
      s.contains u = false ∧ s.get_scan_by_url u = none ∧ s.insert scan = (false, s)) ∧
    (scan.poisoned = true → s.insert scan = (false, s)) ∧
    (rr.responses.poisoned = true →
      rr.insert resp = rr ∧ rr.contains other = false) := by
  refine ⟨?_, ?_, ?_⟩
  · intro h
    refine ⟨?_, ?_, ?_⟩
    · simp [FeroxScans.contains, h]
    · simp [FeroxScans.get_scan_by_url, h]
    · cases hp : scan.poisoned <;>
        simp [FeroxScans.insert, FeroxScans.contains, h, hp]
  · intro h
    simp [FeroxScans.insert, h]
  · intro h
    exact ⟨by simp [FeroxResponses.insert, h], by simp [FeroxResponses.contains, h]⟩

/-- Witness for C5: concrete poisoned registries and records. -/
theorem poisonedLock_degrades_witness :
    ((⟨⟨[], true⟩⟩ : FeroxScans).contains "http://a/" = false ∧
      (⟨⟨[], true⟩⟩ : FeroxScans).get_scan_by_url "http://a/" = none ∧
      (⟨⟨[], true⟩⟩ : FeroxScans).insert
        ⟨{ id := "i", url := "http://a/", scan_type := ScanType.Directory,
           complete := false, task := none, progress_bar := none }, false⟩ =
        (false, ⟨⟨[], true⟩⟩)) ∧
    (FeroxScans.mkDefault.insert
      ⟨{ id := "i", url := "http://a/", scan_type := ScanType.Directory,
         complete := false, task := none, progress_bar := none }, true⟩ =
      (false, FeroxScans.mkDefault)) ∧
    ((⟨⟨[], true⟩⟩ : FeroxResponses).insert ⟨"http://a/", "m"⟩ = ⟨⟨[], true⟩⟩ ∧
      (⟨⟨[], true⟩⟩ : FeroxResponses).contains ⟨"http://a/", "m"⟩ = false) :=
  ⟨(poisonedLock_degrades ⟨⟨[], true⟩⟩ "http://a/"
      ⟨{ id := "i", url := "http://a/", scan_type := ScanType.Directory,
         complete := false, task := none, progress_bar := none }, false⟩
      ⟨⟨[], true⟩⟩ ⟨"http://a/", "m"⟩ ⟨"http://a/", "m"⟩).1 rfl,
   (poisonedLock_degrades FeroxScans.mkDefault "http://a/"
      ⟨{ id := "i", url := "http://a/", scan_type := ScanType.Directory,
         complete := false, task := none, progress_bar := none }, true⟩
      ⟨⟨[], true⟩⟩ ⟨"http://a/", "m"⟩ ⟨"http://a/", "m"⟩).2.1 rfl,
   (poisonedLock_degrades FeroxScans.mkDefault "http://a/"
      ⟨{ id := "i", url := "http://a/", scan_type := ScanType.Directory,
         complete := false, task := none, progress_bar := none }, false⟩
      ⟨⟨[], true⟩⟩ ⟨"http://a/", "m"⟩ ⟨"http://a/", "m"⟩).2.2 rfl⟩

/-- C6: `FeroxScan` equality compares exactly the `id` fields — for any
two records, independent of every other field — so two records built by
independent `FeroxScan::new` calls (distinct draws from the
collision-resistant UUID supply, even with identical URL and type) are
unequal, and copying the first record's id onto the second makes them
equal. -/
theorem scanRecord_eq_iff_id (uuid : Nat → String) (hinj : Function.Injective uuid)
    (a b : FeroxScan) (url₁ url₂ : String) (ty₁ ty₂ : ScanType)
    (pb₁ pb₂ : Option ProgressBar) (g₁ g₂ : Nat) (hg : g₁ ≠ g₂) :
    (FeroxScan.eq a b = true ↔ a.id = b.id) ∧
    FeroxScan.eq (FeroxScan.new uuid url₁ ty₁ pb₁ g₁).1.val
      (FeroxScan.new uuid url₂ ty₂ pb₂ g₂).1.val = false ∧
    FeroxScan.eq
      { (FeroxScan.new uuid url₂ ty₂ pb₂ g₂).1.val with
          id := (FeroxScan.new uuid url₁ ty₁ pb₁ g₁).1.val.id }
      (FeroxScan.new uuid url₁ ty₁ pb₁ g₁).1.val = true := by
  refine ⟨?_, ?_, ?_⟩
  · simp [FeroxScan.eq]
  · have : uuid g₁ ≠ uuid g₂ := fun h => hg (hinj h)
    simp [FeroxScan.eq, FeroxScan.new, FeroxScan.mkDefault, this]
  · simp [FeroxScan.eq, FeroxScan.new, FeroxScan.mkDefault]

/-- Witness for C6: an injective UUID supply, two fresh constructions at
draws 0 and 1 with the same URL and type. -/
theorem scanRecord_eq_iff_id_witness :
    (FeroxScan.eq
        { id := "x", url := "u1", scan_type := ScanType.File, complete := false,
          task := none, progress_bar := none }
        { id := "x", url := "u2", scan_type := ScanType.Directory, complete := true,
          task := none, progress_bar := none } = true ↔
      ("x" : String) = "x") ∧
    FeroxScan.eq
      (FeroxScan.new (fun g => String.mk (List.replicate g 'a')) "http://same/"
        ScanType.Directory none 0).1.val
      (FeroxScan.new (fun g => String.mk (List.replicate g 'a')) "http://same/"
        ScanType.Directory none 1).1.val = false ∧
    FeroxScan.eq
      { (FeroxScan.new (fun g => String.mk (List.replicate g 'a')) "http://same/"
          ScanType.Directory none 1).1.val with
          id := (FeroxScan.new (fun g => String.mk (List.replicate g 'a')) "http://same/"
            ScanType.Directory none 0).1.val.id }
      (FeroxScan.new (fun g => String.mk (List.replicate g 'a')) "http://same/"
        ScanType.Directory none 0).1.val = true :=
  scanRecord_eq_iff_id (fun g => String.mk (List.replicate g 'a'))
    (fun x y h => by
      have := congrArg (fun s => s.data.length) h
      simpa using this)
    { id := "x", url := "u1", scan_type := ScanType.File, complete := false,
      task := none, progress_bar := none }
    { id := "x", url := "u2", scan_type := ScanType.Directory, complete := true,
      task := none, progress_bar := none }
    "http://same/" "http://same/" ScanType.Directory ScanType.Directory none none
    0 1 (by decide)

/-- C7: `finish` sets `complete` to true, puts the progress bar (when
present) into the finished state, and is idempotent: a second `finish`
leaves the record unchanged. -/
theorem finish_idempotent (s : FeroxScan) :
    s.finish.complete = true ∧
    s.finish.progress_bar.all (fun pb => pb.finished) = true ∧
    s.finish.finish = s.finish := by
  cases h : s.progress_bar <;>
    simp [FeroxScan.finish, FeroxScan.stop_progress_bar, ProgressBar.finish, h]

/-- C8: a record constructed without a progress bar has none until
`progress_bar()` is first called; the first call builds a bar sized to
the currently-known total request count, stores it, and returns it not
yet finished; a subsequent call (even with a different known total)
returns the stored bar and changes nothing. -/
theorem progressBar_lazy (uuid : Nat → String) (url : String) (ty : ScanType)
    (g numRequests later : Nat) :
    (FeroxScan.new uuid url ty none g).1.val.progress_bar = none ∧
    ((FeroxScan.new uuid url ty none g).1.val.progressBar numRequests).2.progress_bar =
      some ((FeroxScan.new uuid url ty none g).1.val.progressBar numRequests).1 ∧
    ((FeroxScan.new uuid url ty none g).1.val.progressBar numRequests).1.finished = false ∧
    ((FeroxScan.new uuid url ty none g).1.val.progressBar numRequests).1.length =
      numRequests ∧
    ((FeroxScan.new uuid url ty none g).1.val.progressBar numRequests).2.progressBar later =
      (((FeroxScan.new uuid url ty none g).1.val.progressBar numRequests).1,
       ((FeroxScan.new uuid url ty none g).1.val.progressBar numRequests).2) := by
  simp [FeroxScan.new, FeroxScan.mkDefault, FeroxScan.progressBar, add_bar,
    ProgressBar.reset_elapsed]

/-- C10: `abort` only finishes the progress bar (when present): `id`,
`url`, `scan_type`, `complete` and the task handle are untouched, and in
particular a freshly constructed scan that is aborted without ever being
finished still has `complete = false`. -/
theorem abort_frame (s : FeroxScan) (uuid : Nat → String) (url : String)
    (ty : ScanType) (pb : Option ProgressBar) (g : Nat) :
    s.abort.id = s.id ∧
    s.abort.url = s.url ∧
    s.abort.scan_type = s.scan_type ∧
    s.abort.complete = s.complete ∧
    s.abort.task = s.task ∧
    s.abort.progress_bar = s.progress_bar.map ProgressBar.finish ∧
    (FeroxScan.new uuid url ty pb g).1.val.abort.complete = false := by
  have hlast : (FeroxScan.new uuid url ty pb g).1.val.abort.complete = false := by
    cases hp : pb <;>
      simp [FeroxScan.abort, FeroxScan.stop_progress_bar, FeroxScan.new,
        FeroxScan.mkDefault, hp]
  refine ⟨?_, ?_, ?_, ?_, ?_, ?_, hlast⟩ <;>
    cases h : s.progress_bar <;>
      simp [FeroxScan.abort, FeroxScan.stop_progress_bar, h]

/-- On healthy records, the display loop keeps exactly the
Directory-typed entries, each formatted with its index. -/
lemma displayLoop_eq :
    ∀ (l : List (Locked FeroxScan)) (n : Nat), (∀ r ∈ l, r.poisoned = false) →
      ((List.enumFrom n l).filterMap fun p =>
        if p.2.poisoned then none
        else
          match p.2.val.scan_type with
          | ScanType.Directory => some (FeroxScans.fmtLine p.1 p.2.val)
          | ScanType.File => none) =
      ((List.enumFrom n l).filter fun p =>
        decide (p.2.val.scan_type = ScanType.Directory)).map
        fun p => FeroxScans.fmtLine p.1 p.2.val := by
  intro l
  induction l with
  | nil => intro n _; rfl
  | cons r rest ih =>
    intro n h
    have hr : r.poisoned = false := h r (List.mem_cons_self r rest)
    have hrest := ih (n + 1) fun x hx => h x (List.mem_cons_of_mem r hx)
    cases hty : r.val.scan_type <;>
      simp [List.enumFrom, List.filterMap_cons, List.filter_cons, hr, hty, hrest]

/-- Filtering an enumerated list on a predicate of the element alone
keeps as many entries as filtering the plain list. -/
lemma length_filter_enumFrom :
    ∀ (l : List (Locked FeroxScan)) (n : Nat),
      ((List.enumFrom n l).filter fun p =>
        decide (p.2.val.scan_type = ScanType.Directory)).length =
      (l.filter fun r => decide (r.val.scan_type = ScanType.Directory)).length := by
  intro l
  induction l with
  | nil => intro n; rfl
  | cons r rest ih =>
    intro n
    cases hty : r.val.scan_type <;>
      simp [List.enumFrom, List.filter_cons, hty, ih (n + 1)]

/-- C9: on a healthy registry, `display_scans` mutates nothing (the
registry comes back unchanged) and prints exactly the Directory-typed
records, in order, each as `{index}: {status} {url}` with the status
text chosen by the record's `complete` field (File-typed records are
skipped), so the number of printed lines is the number of
Directory-typed records. -/
theorem displayScans_directory_only (s : FeroxScans)
    (h1 : s.scans.poisoned = false) (h2 : ∀ r ∈ s.scans.val, r.poisoned = false) :
    s.display_scans.2 = s ∧
    s.display_scans.1 =
      ((s.scans.val.enum.filter fun p =>
        decide (p.2.val.scan_type = ScanType.Directory)).map
        fun p => FeroxScans.fmtLine p.1 p.2.val) ∧
    s.display_scans.1.length =
      (s.scans.val.filter fun r =>
        decide (r.val.scan_type = ScanType.Directory)).length := by
  have henum : s.scans.val.enum = List.enumFrom 0 s.scans.val := rfl
  have hmain := displayLoop_eq s.scans.val 0 h2
  constructor
  · simp [FeroxScans.display_scans, h1]
  constructor
  · simp only [FeroxScans.display_scans, h1, Bool.false_eq_true, if_false, henum]
    exact hmain
  · simp only [FeroxScans.display_scans, h1, Bool.false_eq_true, if_false, henum]
    rw [hmain, List.length_map, length_filter_enumFrom s.scans.val 0]

/-- A two-record registry: one incomplete Directory scan and one File
scan, both behind healthy locks. -/
def displayDemoRegistry : FeroxScans :=
  ⟨⟨[⟨{ id := "0", url := "http://dir/", scan_type := ScanType.Directory,
        complete := false, task := none, progress_bar := none }, false⟩,
     ⟨{ id := "1", url := "http://file/", scan_type := ScanType.File,
        complete := false, task := none, progress_bar := none }, false⟩], false⟩⟩

/-- Witness for C9: on the two-record registry (one Directory record,
one File record) the output is exactly one line, the Directory one. -/
theorem displayScans_directory_only_witness :
    displayDemoRegistry.display_scans.2 = displayDemoRegistry ∧
    displayDemoRegistry.display_scans.1 =
      ((displayDemoRegistry.scans.val.enum.filter fun p =>
        decide (p.2.val.scan_type = ScanType.Directory)).map
        fun p => FeroxScans.fmtLine p.1 p.2.val) ∧
    displayDemoRegistry.display_scans.1.length =
      (displayDemoRegistry.scans.val.filter fun r =>
        decide (r.val.scan_type = ScanType.Directory)).length :=
  displayScans_directory_only displayDemoRegistry rfl (by decide)


/-- A successful exit of the pause busy-loop exits at the first tick (at
or after the starting tick) that observes the flag false: the flag is
false at the exit tick and was true at every tick from the start up to
it. -/
lemma pauseLoop_exit_first_false (flags : Nat → Bool) (pg : PauseGlobals) :
    ∀ (fuel k n : Nat) (pg' : PauseGlobals),
      pauseLoop flags pg fuel k = some (n, pg') →
      flags n = false ∧ ∀ m, k ≤ m → m < n → flags m = true := by
  intro fuel
  induction fuel with
  | zero =>
    intro k n pg' h
    exact absurd h (by simp [pauseLoop])
  | succ fuel ih =>
    intro k n pg' h
    by_cases hf : flags k = true
    · have hrec : pauseLoop flags pg fuel (k + 1) = some (n, pg') := by
        simpa [pauseLoop, hf] using h
      obtain ⟨h1, h2⟩ := ih (k + 1) n pg' hrec
      refine ⟨h1, ?_⟩
      intro m hkm hmn
      rcases Nat.eq_or_lt_of_le hkm with rfl | hlt
      · exact hf
      · exact h2 m hlt hmn
    · have hf' : flags k = false := by
        cases hq : flags k
        · rfl
        · exact absurd hq hf
      simp only [pauseLoop, hf', Bool.false_eq_true, if_false, Option.some.injEq,
        Prod.mk.injEq] at h
      obtain ⟨rfl, -⟩ := h
      refine ⟨hf', ?_⟩
      intro m hkm hmn
      exact absurd (Nat.lt_of_le_of_lt hkm hmn) (Nat.lt_irrefl _)

/-- While every observed flag value is true, the pause busy-loop does
not exit. -/
lemma pauseLoop_stays (flags : Nat → Bool) (pg : PauseGlobals) :
    ∀ (fuel k : Nat), (∀ m, k ≤ m → m < k + fuel → flags m = true) →
      pauseLoop flags pg fuel k = none := by
  intro fuel
  induction fuel with
  | zero => intro k _; rfl
  | succ fuel ih =>
    intro k h
    have hk : flags k = true := h k (Nat.le_refl k) (by omega)
    have hstep : pauseLoop flags pg (fuel + 1) k = pauseLoop flags pg fuel (k + 1) := by
      simp [pauseLoop, hk]
    rw [hstep]
    refine ih (k + 1) ?_
    intro m h1 h2
    exact h m (by omega) (by omega)

/-- C4: a caller inside the pause-wait entry point returns only after
observing `PAUSE_SCAN` false, and not before: whenever `pause` returns,
it returns at a tick `n` at which the flag read was false while the flag
read at every earlier tick was true; and while every flag read is true
the caller has not returned. -/
theorem pause_returns_only_after_flag_false (s : FeroxScans) (gui : Bool)
    (pg : PauseGlobals) (flags : Nat → Bool) (fuel : Nat) :
    (∀ n pg' shown, s.pause gui pg flags fuel = some (n, pg', shown) →
      flags n = false ∧ ∀ m, m < n → flags m = true) ∧
    ((∀ m, m < fuel → flags m = true) → s.pause gui pg flags fuel = none) := by
  constructor
  · intro n pg' shown h
    unfold FeroxScans.pause at h
    rcases hloop : pauseLoop flags (pauseSpinnerPrep (pauseBarrierStep pg)) fuel 0
      with _ | ⟨pn, ppg⟩
    · rw [hloop] at h
      exact absurd h (by simp)
    · rw [hloop] at h
      have hn : pn = n := by
        have := Option.some.inj h
        exact congrArg Prod.fst this
      subst hn
      obtain ⟨h1, h2⟩ :=
        pauseLoop_exit_first_false flags (pauseSpinnerPrep (pauseBarrierStep pg))
          fuel 0 pn ppg hloop
      exact ⟨h1, fun m hm => h2 m (Nat.zero_le m) hm⟩
  · intro hall
    unfold FeroxScans.pause
    have hnone := pauseLoop_stays flags (pauseSpinnerPrep (pauseBarrierStep pg)) fuel 0
      fun m h1 h2 => hall m (by omega)
    rw [hnone]

/-- Witness for C4: with the flag held true for ticks 0 and 1 and false
from tick 2 on, the caller returns exactly at tick 2 (flag false there,
true at every earlier tick), and a caller whose first 5 flag reads are
all true has not returned. -/
theorem pause_returns_only_after_flag_false_witness :
    ((fun n => decide (n < 2)) 2 = false ∧
      ∀ m, m < 2 → (fun n => decide (n < 2)) m = true) ∧
    FeroxScans.mkDefault.pause false ⟨0, ⟨get_single_spinner, false⟩⟩
      (fun _ => true) 5 = none :=
  ⟨(pause_returns_only_after_flag_false FeroxScans.mkDefault false
      ⟨0, ⟨get_single_spinner, false⟩⟩ (fun n => decide (n < 2)) 5).1
      2 ⟨0, ⟨⟨0, 0, true⟩, false⟩⟩ [] rfl,
   (pause_returns_only_after_flag_false FeroxScans.mkDefault false
      ⟨0, ⟨get_single_spinner, false⟩⟩ (fun _ => true) 5).2
      (fun _ _ => rfl)⟩

/-- When every element of the `responses` array deserializes, the resume
loop inserts them all, in file order. -/
lemma insertResponses_all_ok (parseResponse : Json → Option FeroxResponse) :
    ∀ (elems : List Json) (rs : List FeroxResponse) (reg : FeroxResponses),
      elems.mapM parseResponse = some rs →
      insertResponses parseResponse reg elems = some (rs.foldl FeroxResponses.insert reg) := by
  intro elems
  induction elems with
  | nil =>
    intro rs reg h
    simp only [List.mapM_nil, Option.pure_def, Option.some.injEq] at h
    subst h
    rfl
  | cons j rest ih =>
    intro rs reg h
    rcases hj : parseResponse j with _ | r
    · rw [List.mapM_cons, hj] at h
      simp at h
    · rw [List.mapM_cons, hj] at h
      rcases hrest : rest.mapM parseResponse with _ | rs'
      · rw [hrest] at h
        simp at h
      · rw [hrest] at h
        simp only [Option.bind_some, Option.map_some, Option.pure_def,
          Option.bind_eq_bind, Option.some_bind, Option.some.injEq] at h
        subst h
        simp only [insertResponses, hj]
        rw [ih rs' (reg.insert r) hrest]
        rfl

/-- On a healthy response registry, folding the inserts appends the
records in order. -/
lemma foldl_insert_append :
    ∀ (rs : List FeroxResponse) (reg : FeroxResponses),
      reg.responses.poisoned = false →
      rs.foldl FeroxResponses.insert reg = ⟨⟨reg.responses.val ++ rs, false⟩⟩ := by
  intro rs
  induction rs with
  | nil =>
    intro reg h
    rcases reg with ⟨⟨v, p⟩⟩
    simp only at h
    subst h
    simp
  | cons r rest ih =>
    intro reg h
    have hstep : FeroxResponses.insert reg r = ⟨⟨reg.responses.val ++ [r], false⟩⟩ := by
      simp [FeroxResponses.insert, h]
    simp only [List.foldl_cons, hstep]
    rw [ih ⟨⟨reg.responses.val ++ [r], false⟩⟩ rfl]
    simp

/-- If some element of the `responses` array fails to deserialize, the
resume loop panics (terminates the process). -/
lemma insertResponses_fails (parseResponse : Json → Option FeroxResponse) :
    ∀ (elems : List Json) (reg : FeroxResponses) (j : Json),
      j ∈ elems → parseResponse j = none →
      insertResponses parseResponse reg elems = none := by
  intro elems
  induction elems with
  | nil =>
    intro reg j hj _
    exact absurd hj (List.not_mem_nil j)
  | cons e rest ih =>
    intro reg j hj hfail
    rcases he : parseResponse e with _ | r
    · simp [insertResponses, he]
    · rcases List.mem_cons.1 hj with rfl | hj'
      · rw [he] at hfail
        cases hfail
      · simp only [insertResponses, he]
        exact ih (reg.insert r) j hj' hfail

/-- C2: on a well-formed state file, `resume_scan` opens and parses the
file, returns the deserialized `config` section as the configuration,
inserts every element of the `responses` section into the live response
registry in file order (appending them to its existing content when its
lock is healthy), and leaves the live scan registry unchanged (the
`scans` section is not replayed). -/
theorem resumeScan_restores {Config : Type} (fs : String → Option (Option Json))
    (parseConfig : Json → Option Config) (parseResponse : Json → Option FeroxResponse)
    (responses : FeroxResponses) (scans : FeroxScans) (filename : String)
    (st cj : Json) (cfg : Config) (elems : List Json) (rs : List FeroxResponse)
    (hfile : fs filename = some (some st))
    (hcj : st.get "config" = some cj)
    (hcfg : parseConfig cj = some cfg)
    (hrespj : st.get "responses" = some (Json.arr elems))
    (hparse : elems.mapM parseResponse = some rs)
    (hhealthy : responses.responses.poisoned = false) :
    resume_scan fs parseConfig parseResponse responses scans filename =
      some (cfg, ⟨⟨responses.responses.val ++ rs, false⟩⟩, scans) := by
  have hloop := insertResponses_all_ok parseResponse elems rs responses hparse
  rw [foldl_insert_append rs responses hhealthy] at hloop
  simp [resume_scan, hfile, hcj, hcfg, hrespj, Json.as_array, hloop]

/-- Witness for C2: a concrete two-section state file with one response
record; the configuration is the number 5 and the response lands behind
the registry's existing record. -/
theorem resumeScan_restores_witness :
    resume_scan
      (fun f => if f == "ferox-1.state" then
        some (some (Json.obj [("config", Json.num 5),
          ("responses", Json.arr [Json.str "http://a/"])]))
        else none)
      (fun j => match j with | Json.num n => some n | _ => none)
      (fun j => match j with | Json.str u => some ⟨u, "meta"⟩ | _ => none)
      ⟨⟨[⟨"http://old/", "m0"⟩], false⟩⟩ FeroxScans.mkDefault "ferox-1.state" =
      some ((5 : Int),
        ⟨⟨[⟨"http://old/", "m0"⟩, ⟨"http://a/", "meta"⟩], false⟩⟩,
        FeroxScans.mkDefault) :=
  resumeScan_restores
    (fun f => if f == "ferox-1.state" then
      some (some (Json.obj [("config", Json.num 5),
        ("responses", Json.arr [Json.str "http://a/"])]))
      else none)
    (fun j => match j with | Json.num n => some n | _ => none)
    (fun j => match j with | Json.str u => some ⟨u, "meta"⟩ | _ => none)
    ⟨⟨[⟨"http://old/", "m0"⟩], false⟩⟩ FeroxScans.mkDefault "ferox-1.state"
    (Json.obj [("config", Json.num 5), ("responses", Json.arr [Json.str "http://a/"])])
    (Json.num 5) 5 [Json.str "http://a/"] [⟨"http://a/", "meta"⟩]
    rfl rfl rfl rfl rfl rfl

/-- C3: every malformed input is fatal — `resume_scan` terminates the
process (embedded as `none`) rather than returning a configuration or a
recoverable error, when: the state file is missing; its contents do not
parse as JSON; the `config` key is missing; the `config` section does
not deserialize; the `responses` key is missing; the `responses` section
is not an array; or some element of `responses` does not deserialize. -/
theorem resumeScan_fatal_on_malformed {Config : Type}
    (fs : String → Option (Option Json)) (parseConfig : Json → Option Config)
    (parseResponse : Json → Option FeroxResponse)
    (responses : FeroxResponses) (scans : FeroxScans) (filename : String) :
    (fs filename = none →
      resume_scan fs parseConfig parseResponse responses scans filename = none) ∧
    (fs filename = some none →
      resume_scan fs parseConfig parseResponse responses scans filename = none) ∧
    (∀ st, fs filename = some (some st) → st.get "config" = none →
      resume_scan fs parseConfig parseResponse responses scans filename = none) ∧
    (∀ st cj, fs filename = some (some st) → st.get "config" = some cj →
      parseConfig cj = none →
      resume_scan fs parseConfig parseResponse responses scans filename = none) ∧
    (∀ st cj cfg, fs filename = some (some st) → st.get "config" = some cj →
      parseConfig cj = some cfg → st.get "responses" = none →
      resume_scan fs parseConfig parseResponse responses scans filename = none) ∧
    (∀ st cj cfg rj, fs filename = some (some st) → st.get "config" = some cj →
      parseConfig cj = some cfg → st.get "responses" = some rj → rj.as_array = none →
      resume_scan fs parseConfig parseResponse responses scans filename = none) ∧
    (∀ st cj cfg elems j, fs filename = some (some st) → st.get "config" = some cj →
      parseConfig cj = some cfg → st.get "responses" = some (Json.arr elems) →
      j ∈ elems → parseResponse j = none →
      resume_scan fs parseConfig parseResponse responses scans filename = none) := by
  refine ⟨?_, ?_, ?_, ?_, ?_, ?_, ?_⟩
  · intro h
    simp [resume_scan, h]
  · intro h
    simp [resume_scan, h]
  · intro st h1 h2
    simp [resume_scan, h1, h2]
  · intro st cj h1 h2 h3
    simp [resume_scan, h1, h2, h3]
  · intro st cj cfg h1 h2 h3 h4
    simp [resume_scan, h1, h2, h3, h4]
  · intro st cj cfg rj h1 h2 h3 h4 h5
    simp [resume_scan, h1, h2, h3, h4, h5]
  · intro st cj cfg elems j h1 h2 h3 h4 h5 h6
    have hloop := insertResponses_fails parseResponse elems responses j h5 h6
    simp [resume_scan, h1, h2, h3, h4, Json.as_array, hloop]

/-- Witness for C3: each of the seven fatal shapes at a concrete input —
missing file, non-JSON contents, missing `config`, undeserializable
`config`, missing `responses`, non-array `responses`, and one malformed
`responses` element. -/
theorem resumeScan_fatal_on_malformed_witness :
    resume_scan (fun _ => (none : Option (Option Json)))
      (fun j => some j) (fun _ => some ⟨"u", "m"⟩)
      ⟨⟨[], false⟩⟩ FeroxScans.mkDefault "ferox-1.state" = none ∧
    resume_scan (fun _ => some (none : Option Json))
      (fun j => some j) (fun _ => some ⟨"u", "m"⟩)
      ⟨⟨[], false⟩⟩ FeroxScans.mkDefault "ferox-1.state" = none ∧
    resume_scan (fun _ => some (some (Json.obj [])))
      (fun j => some j) (fun _ => some ⟨"u", "m"⟩)
      ⟨⟨[], false⟩⟩ FeroxScans.mkDefault "ferox-1.state" = none ∧
    resume_scan (fun _ => some (some (Json.obj [("config", Json.num 5)])))
      (fun _ => (none : Option Json)) (fun _ => some ⟨"u", "m"⟩)
      ⟨⟨[], false⟩⟩ FeroxScans.mkDefault "ferox-1.state" = none ∧
    resume_scan (fun _ => some (some (Json.obj [("config", Json.num 5)])))
      (fun j => some j) (fun _ => some ⟨"u", "m"⟩)
      ⟨⟨[], false⟩⟩ FeroxScans.mkDefault "ferox-1.state" = none ∧
    resume_scan (fun _ => some (some (Json.obj [("config", Json.num 5),
        ("responses", Json.num 9)])))
      (fun j => some j) (fun _ => some ⟨"u", "m"⟩)
      ⟨⟨[], false⟩⟩ FeroxScans.mkDefault "ferox-1.state" = none ∧
    resume_scan (fun _ => some (some (Json.obj [("config", Json.num 5),
        ("responses", Json.arr [Json.num 3])])))
      (fun j => some j) (fun _ => (none : Option FeroxResponse))
      ⟨⟨[], false⟩⟩ FeroxScans.mkDefault "ferox-1.state" = none :=
  ⟨(resumeScan_fatal_on_malformed (fun _ => none) (fun j => some j)
      (fun _ => some ⟨"u", "m"⟩) ⟨⟨[], false⟩⟩ FeroxScans.mkDefault
      "ferox-1.state").1 rfl,
   (resumeScan_fatal_on_malformed (fun _ => some none) (fun j => some j)
      (fun _ => some ⟨"u", "m"⟩) ⟨⟨[], false⟩⟩ FeroxScans.mkDefault
      "ferox-1.state").2.1 rfl,
   (resumeScan_fatal_on_malformed (fun _ => some (some (Json.obj [])))
      (fun j => some j) (fun _ => some ⟨"u", "m"⟩) ⟨⟨[], false⟩⟩
      FeroxScans.mkDefault "ferox-1.state").2.2.1 (Json.obj []) rfl rfl,
   (resumeScan_fatal_on_malformed (fun _ => some (some (Json.obj [("config", Json.num 5)])))
      (fun _ => (none : Option Json)) (fun _ => some ⟨"u", "m"⟩) ⟨⟨[], false⟩⟩
      FeroxScans.mkDefault "ferox-1.state").2.2.2.1
      (Json.obj [("config", Json.num 5)]) (Json.num 5) rfl rfl rfl,
   (resumeScan_fatal_on_malformed (fun _ => some (some (Json.obj [("config", Json.num 5)])))
      (fun j => some j) (fun _ => some ⟨"u", "m"⟩) ⟨⟨[], false⟩⟩
      FeroxScans.mkDefault "ferox-1.state").2.2.2.2.1
      (Json.obj [("config", Json.num 5)]) (Json.num 5) (Json.num 5) rfl rfl rfl rfl,
   (resumeScan_fatal_on_malformed (fun _ => some (some (Json.obj [("config", Json.num 5),
        ("responses", Json.num 9)])))
      (fun j => some j) (fun _ => some ⟨"u", "m"⟩) ⟨⟨[], false⟩⟩
      FeroxScans.mkDefault "ferox-1.state").2.2.2.2.2.1
      (Json.obj [("config", Json.num 5), ("responses", Json.num 9)])
      (Json.num 5) (Json.num 5) (Json.num 9) rfl rfl rfl rfl rfl,
   (resumeScan_fatal_on_malformed (fun _ => some (some (Json.obj [("config", Json.num 5),
        ("responses", Json.arr [Json.num 3])])))
      (fun j => some j) (fun _ => (none : Option FeroxResponse)) ⟨⟨[], false⟩⟩
      FeroxScans.mkDefault "ferox-1.state").2.2.2.2.2.2
      (Json.obj [("config", Json.num 5), ("responses", Json.arr [Json.num 3])])
      (Json.num 5) (Json.num 5) [Json.num 3] (Json.num 3)
      rfl rfl rfl rfl (List.mem_singleton.2 rfl) rfl⟩
